import Mathlib

/-!
Verification development for the `python-http-api` repository.

The embedding covers the serialization framework of
`src/src/xnt/models/http_jto.py` (`camel`, `extract_to_model`, `dc`,
`BaseSerializable.__dict`/`to_enum`/`to_json`/`__eq__`,
`Serializable.from_json`) and the client pieces of `src/src/http_api.py`
that the claims touch (`JWTAuth`, `HTTPApiStreaming.run`,
`HTTPApi._mk_account`, `HTTPApi.get_orders`, `HTTPApi.get_active_orders`).

Python `decimal.Decimal` values produced by `dc` always have a
non-positive exponent (they come from wire strings, ints or floats), so
they are embedded as an integer mantissa together with the number of kept
fractional digits.  `str(Decimal)` is embedded by `renderDec` in plain
notation (the scientific-notation branch of `Decimal.__str__`, taken only
for exponents beyond its `-6` threshold, is not modelled) and
`Decimal(str)` construction by `parseDec`.
-/

/-- Exact decimal value `mant / 10 ^ exp`, keeping `exp` fractional digits
(mirrors `decimal.Decimal` with exponent `-exp`). -/
structure Dec where
  mant : Int
  exp : Nat
deriving DecidableEq

def digitChar (n : Nat) : Char := Char.ofNat (48 + n)

def charDigit (c : Char) : Nat := c.toNat - 48

def isDigitCh (c : Char) : Bool := 48 ≤ c.toNat && c.toNat ≤ 57

/-- Little-endian decimal digits of `n`; the fuel argument makes the
recursion structural (callers pass `n` itself, which is enough fuel). -/
def natDigitsRev : Nat → Nat → List Nat
  | 0, _ => []
  | _ + 1, 0 => []
  | fuel + 1, n + 1 => (n + 1) % 10 :: natDigitsRev fuel ((n + 1) / 10)

/-- Big-endian digit characters of `n` (empty for `0`). -/
def natChars (n : Nat) : List Char := ((natDigitsRev n n).reverse).map digitChar

/-- Decimal rendering of a natural number, as `str` renders Python ints. -/
def renderNat (n : Nat) : List Char := if n = 0 then ['0'] else natChars n

/-- Value of a big-endian list of digit characters. -/
def digitsToNat (cs : List Char) : Nat := cs.foldl (fun acc c => 10 * acc + charDigit c) 0

theorem charDigit_digitChar {d : Nat} (h : d < 10) : charDigit (digitChar d) = d := by
  interval_cases d <;> rfl

theorem isDigitCh_digitChar {d : Nat} (h : d < 10) : isDigitCh (digitChar d) = true := by
  interval_cases d <;> rfl

theorem digitsToNat_from (a : Nat) (cs : List Char) :
    cs.foldl (fun acc c => 10 * acc + charDigit c) a = a * 10 ^ cs.length + digitsToNat cs := by
  induction cs generalizing a with
  | nil => simp [digitsToNat]
  | cons c cs ih =>
    simp only [digitsToNat, List.foldl_cons, List.length_cons]
    rw [ih (10 * a + charDigit c), ih (10 * 0 + charDigit c)]
    ring

theorem digitsToNat_append (a b : List Char) :
    digitsToNat (a ++ b) = digitsToNat a * 10 ^ b.length + digitsToNat b := by
  simp only [digitsToNat, List.foldl_append]
  rw [digitsToNat_from]
  rfl

theorem digitsToNat_concat (cs : List Char) (c : Char) :
    digitsToNat (cs ++ [c]) = 10 * digitsToNat cs + charDigit c := by
  rw [digitsToNat_append]
  simp [digitsToNat]
  ring

theorem natDigitsRev_lt_ten {fuel n d : Nat} (h : d ∈ natDigitsRev fuel n) : d < 10 := by
  induction fuel generalizing n with
  | zero => simp [natDigitsRev] at h
  | succ fuel ih =>
    match n with
    | 0 => simp [natDigitsRev] at h
    | n + 1 =>
      simp only [natDigitsRev, List.mem_cons] at h
      rcases h with h | h
      · subst h
        exact Nat.mod_lt _ (by omega)
      · exact ih h

theorem digitsToNat_natDigitsRev {fuel n : Nat} (h : n ≤ fuel) :
    digitsToNat ((natDigitsRev fuel n).reverse.map digitChar) = n := by
  induction fuel generalizing n with
  | zero =>
    have : n = 0 := by omega
    subst this
    rfl
  | succ fuel ih =>
    match n with
    | 0 => rfl
    | n + 1 =>
      have hdiv : (n + 1) / 10 ≤ fuel := by
        have := Nat.div_lt_self (by omega : 0 < n + 1) (by omega : 1 < 10)
        omega
      simp only [natDigitsRev, List.reverse_cons, List.map_append, List.map_cons,
        List.map_nil]
      rw [digitsToNat_concat, ih hdiv, charDigit_digitChar (Nat.mod_lt _ (by omega))]
      omega

theorem digitsToNat_natChars (n : Nat) : digitsToNat (natChars n) = n :=
  digitsToNat_natDigitsRev (Nat.le_refl n)

theorem digitsToNat_renderNat (n : Nat) : digitsToNat (renderNat n) = n := by
  unfold renderNat
  by_cases h : n = 0
  · subst h; rfl
  · rw [if_neg h]; exact digitsToNat_natChars n

theorem natChars_digits {n : Nat} {c : Char} (h : c ∈ natChars n) : isDigitCh c = true := by
  simp only [natChars, List.mem_map, List.mem_reverse] at h
  obtain ⟨d, hd, rfl⟩ := h
  exact isDigitCh_digitChar (natDigitsRev_lt_ten hd)

theorem renderNat_digits {n : Nat} {c : Char} (h : c ∈ renderNat n) : isDigitCh c = true := by
  unfold renderNat at h
  by_cases h0 : n = 0
  · subst h0
    simp at h
    subst h
    rfl
  · rw [if_neg h0] at h
    exact natChars_digits h

theorem renderNat_ne_nil (n : Nat) : renderNat n ≠ [] := by
  unfold renderNat
  by_cases h0 : n = 0
  · subst h0; simp
  · rw [if_neg h0]
    unfold natChars
    match n, h0 with
    | n + 1, _ =>
      simp [natDigitsRev]

theorem isDigitCh_ne (c : Char) (h : isDigitCh c = true) :
    c ≠ '-' ∧ c ≠ '+' ∧ c ≠ '.' := by
  simp only [isDigitCh, Bool.and_eq_true, decide_eq_true_eq] at h
  refine ⟨?_, ?_, ?_⟩ <;>
  · intro hc
    subst hc
    revert h
    decide

theorem natDigitsRev_length {fuel n k : Nat} (hk : n < 10 ^ k) :
    (natDigitsRev fuel n).length ≤ k := by
  induction fuel generalizing n k with
  | zero => simp [natDigitsRev]
  | succ fuel ih =>
    match n with
    | 0 => simp [natDigitsRev]
    | n + 1 =>
      match k with
      | 0 => omega
      | k + 1 =>
        simp only [natDigitsRev, List.length_cons]
        have hdiv : (n + 1) / 10 < 10 ^ k := by
          rw [Nat.div_lt_iff_lt_mul (by omega : 0 < 10)]
          calc n + 1 < 10 ^ (k + 1) := hk
          _ = 10 ^ k * 10 := by ring
        have := ih hdiv
        omega

theorem renderNat_length {n k : Nat} (hk : n < 10 ^ k) (hk0 : 0 < k) :
    (renderNat n).length ≤ k := by
  unfold renderNat
  by_cases h0 : n = 0
  · subst h0; simpa using hk0
  · rw [if_neg h0]
    unfold natChars
    rw [List.length_map, List.length_reverse]
    exact natDigitsRev_length hk

def padZeros (k : Nat) (cs : List Char) : List Char := List.replicate (k - cs.length) '0' ++ cs

theorem padZeros_length {k : Nat} {cs : List Char} (h : cs.length ≤ k) :
    (padZeros k cs).length = k := by
  simp [padZeros]
  omega

theorem digitsToNat_replicate_zero (z : Nat) (cs : List Char) :
    digitsToNat (List.replicate z '0' ++ cs) = digitsToNat cs := by
  induction z with
  | zero => rfl
  | succ z ih =>
    simp only [List.replicate_succ, List.cons_append]
    simp only [digitsToNat, List.foldl_cons] at ih ⊢
    have : (10 * 0 + charDigit '0') = 0 := by decide
    rw [this]
    exact ih

theorem digitsToNat_padZeros (k : Nat) (cs : List Char) :
    digitsToNat (padZeros k cs) = digitsToNat cs :=
  digitsToNat_replicate_zero _ cs

theorem padZeros_digits {k : Nat} {cs : List Char} (hcs : ∀ c ∈ cs, isDigitCh c = true) :
    ∀ c ∈ padZeros k cs, isDigitCh c = true := by
  intro c hc
  simp only [padZeros, List.mem_append, List.mem_replicate] at hc
  rcases hc with ⟨_, rfl⟩ | hc
  · rfl
  · exact hcs c hc

/-- Rendering of a `Decimal` by `str` (plain notation): translation of what
`BaseSerializable.__dict` relies on when it runs `str(obj)` on a `Decimal`
(`http_jto.py` line 116). -/
def renderDecL (d : Dec) : List Char :=
  let sign : List Char := if d.mant < 0 then ['-'] else []
  let m := d.mant.natAbs
  if d.exp = 0 then sign ++ renderNat m
  else sign ++ renderNat (m / 10 ^ d.exp) ++ '.' :: padZeros d.exp (renderNat (m % 10 ^ d.exp))

def renderDec (d : Dec) : String := String.mk (renderDecL d)

/-- `(negative sign seen, remaining characters)`: the sign handling of
`Decimal(<str>)` construction. -/
def stripSignL (cs : List Char) : Bool × List Char :=
  match cs with
  | [] => (false, [])
  | c :: rest =>
    if c = '-' then (true, rest)
    else if c = '+' then (false, rest)
    else (false, c :: rest)

/-- Split at the first `'.'`, keeping what precedes and follows it. -/
def splitDot : List Char → List Char × Option (List Char)
  | [] => ([], none)
  | c :: rest =>
    if c = '.' then ([], some rest)
    else
      let p := splitDot rest
      (c :: p.1, p.2)

def applySign (neg : Bool) (n : Nat) : Int := if neg then -(n : Int) else n

/-- `Decimal(<str>)` construction on plain decimal literals
(`[sign] digits [. digits]`); `none` models `InvalidOperation`. -/
def parseDecL (cs : List Char) : Option Dec :=
  let sp := stripSignL cs
  let p := splitDot sp.2
  match p.2 with
  | none =>
    if decide (p.1 ≠ []) && p.1.all isDigitCh then
      some ⟨applySign sp.1 (digitsToNat p.1), 0⟩
    else none
  | some frac =>
    if decide (p.1 ++ frac ≠ []) && p.1.all isDigitCh && frac.all isDigitCh then
      some ⟨applySign sp.1 (digitsToNat (p.1 ++ frac)), frac.length⟩
    else none

def parseDec (s : String) : Option Dec := parseDecL s.data

theorem splitDot_no_dot {cs : List Char} (h : ∀ c ∈ cs, c ≠ '.') :
    splitDot cs = (cs, none) := by
  induction cs with
  | nil => rfl
  | cons c rest ih =>
    have hc : c ≠ '.' := h c (List.mem_cons_self _ _)
    simp only [splitDot, if_neg hc]
    rw [ih (fun x hx => h x (List.mem_cons_of_mem _ hx))]

theorem splitDot_append {a b : List Char} (h : ∀ c ∈ a, c ≠ '.') :
    splitDot (a ++ '.' :: b) = (a, some b) := by
  induction a with
  | nil => simp [splitDot]
  | cons c rest ih =>
    have hc : c ≠ '.' := h c (List.mem_cons_self _ _)
    simp only [List.cons_append, splitDot, if_neg hc, List.append_eq]
    rw [ih (fun x hx => h x (List.mem_cons_of_mem _ hx))]

theorem stripSignL_digit {cs : List Char}
    (h : ∀ c ∈ cs, isDigitCh c = true) : stripSignL cs = (false, cs) := by
  match cs with
  | [] => rfl
  | c :: rest =>
    have hd := isDigitCh_ne c (h c (List.mem_cons_self _ _))
    simp [stripSignL, hd.1, hd.2.1]

theorem stripSignL_sign_cons (p : Prop) [Decidable p] (c : Char) (t : List Char)
    (hc : isDigitCh c = true) :
    stripSignL ((if p then ['-'] else []) ++ c :: t) = (decide p, c :: t) := by
  have hd := isDigitCh_ne c hc
  by_cases hp : p
  · simp [if_pos hp, stripSignL, hp]
  · simp [if_neg hp, stripSignL, hd.1, hd.2.1, hp]

theorem applySign_natAbs (mant : Int) :
    applySign (decide (mant < 0)) mant.natAbs = mant := by
  unfold applySign
  by_cases hm : mant < 0
  · rw [if_pos (decide_eq_true hm)]
    omega
  · rw [if_neg (by simpa using hm)]
    omega

theorem parseDecL_renderDecL (d : Dec) : parseDecL (renderDecL d) = some d := by
  obtain ⟨mant, exp⟩ := d
  by_cases hexp : exp = 0
  · subst hexp
    obtain ⟨h, t, hht⟩ := List.exists_cons_of_ne_nil (renderNat_ne_nil mant.natAbs)
    have hdig : ∀ c ∈ h :: t, isDigitCh c = true := fun c hc =>
      renderNat_digits (hht ▸ hc)
    have hstrip := stripSignL_sign_cons (mant < 0) h t (hdig h (List.mem_cons_self _ _))
    have hdot : ∀ c ∈ h :: t, c ≠ '.' := fun c hc => (isDigitCh_ne c (hdig c hc)).2.2
    have hsplit := splitDot_no_dot hdot
    have hval : digitsToNat (h :: t) = mant.natAbs := hht ▸ digitsToNat_renderNat mant.natAbs
    have hrender : renderDecL ⟨mant, 0⟩ = (if mant < 0 then ['-'] else []) ++ h :: t := by
      simp [renderDecL, hht]
    rw [hrender]
    unfold parseDecL
    rw [hstrip]
    simp [hsplit, hdig, hval, applySign_natAbs]
    exact fun c hc => hdig c (List.mem_cons_of_mem _ hc)
  · have hpow : 0 < 10 ^ exp := Nat.pos_pow_of_pos exp (by omega)
    obtain ⟨h, t, hht⟩ := List.exists_cons_of_ne_nil (renderNat_ne_nil (mant.natAbs / 10 ^ exp))
    have hidig : ∀ c ∈ h :: t, isDigitCh c = true := fun c hc =>
      renderNat_digits (hht ▸ hc)
    have htdig : ∀ c ∈ t, isDigitCh c = true := fun c hc =>
      hidig c (List.mem_cons_of_mem _ hc)
    have hfdig : ∀ c ∈ padZeros exp (renderNat (mant.natAbs % 10 ^ exp)), isDigitCh c = true :=
      padZeros_digits (fun c hc => renderNat_digits hc)
    have hflen : (padZeros exp (renderNat (mant.natAbs % 10 ^ exp))).length = exp :=
      padZeros_length (renderNat_length (Nat.mod_lt _ hpow) (by omega))
    have hstrip := stripSignL_sign_cons (mant < 0) h
      (t ++ '.' :: padZeros exp (renderNat (mant.natAbs % 10 ^ exp)))
      (hidig h (List.mem_cons_self _ _))
    have hdot : ∀ c ∈ h :: t, c ≠ '.' := fun c hc => (isDigitCh_ne c (hidig c hc)).2.2
    have hsplit := splitDot_append (b := padZeros exp (renderNat (mant.natAbs % 10 ^ exp))) hdot
    simp only [List.cons_append] at hsplit
    have hval : digitsToNat (h :: (t ++ padZeros exp (renderNat (mant.natAbs % 10 ^ exp))))
        = mant.natAbs := by
      rw [show h :: (t ++ padZeros exp (renderNat (mant.natAbs % 10 ^ exp)))
            = (h :: t) ++ padZeros exp (renderNat (mant.natAbs % 10 ^ exp)) from rfl]
      rw [digitsToNat_append, hflen, digitsToNat_padZeros, hht.symm,
        digitsToNat_renderNat, digitsToNat_renderNat]
      exact Nat.div_add_mod' _ _
    have hrender : renderDecL ⟨mant, exp⟩ = (if mant < 0 then ['-'] else []) ++
        h :: (t ++ '.' :: padZeros exp (renderNat (mant.natAbs % 10 ^ exp))) := by
      simp [renderDecL, if_neg hexp, hht]
    rw [hrender]
    unfold parseDecL
    rw [hstrip]
    simp [hsplit, hidig, htdig, hfdig, hflen, hval, applySign_natAbs]
    exact ⟨htdig, hfdig⟩

theorem parseDec_renderDec (d : Dec) : parseDec (renderDec d) = some d :=
  parseDecL_renderDecL d

theorem renderDec_injective {a b : Dec} (h : renderDec a = renderDec b) : a = b := by
  have ha := parseDec_renderDec a
  have hb := parseDec_renderDec b
  rw [h, hb] at ha
  exact (Option.some.injEq _ _ ▸ ha).symm

/-- The exact rational value of a `Decimal`. -/
def Dec.toRat (d : Dec) : ℚ := (d.mant : ℚ) / (10 : ℚ) ^ d.exp

/-- Value of an integer digit string, read directly as a rational. -/
def intRatOfDigits (cs : List Char) : ℚ := cs.foldl (fun acc c => 10 * acc + (charDigit c : ℚ)) 0

/-- Value of a fractional digit string `d₁d₂…dₖ` as `Σ dᵢ / 10 ^ i`, read
directly as a rational. -/
def fracRatOfDigits (cs : List Char) : ℚ := cs.foldr (fun c acc => ((charDigit c : ℚ) + acc) / 10) 0

/-- Independent reading of a plain decimal literal `[sign] digits [. digits]`
as an exact rational: the reference meaning that `dc`'s parsing is checked
against. -/
def litRatL (cs : List Char) : Option ℚ :=
  let sp := stripSignL cs
  let p := splitDot sp.2
  let signQ : ℚ := if sp.1 then -1 else 1
  match p.2 with
  | none =>
    if decide (p.1 ≠ []) && p.1.all isDigitCh then
      some (signQ * intRatOfDigits p.1)
    else none
  | some frac =>
    if decide (p.1 ++ frac ≠ []) && p.1.all isDigitCh && frac.all isDigitCh then
      some (signQ * (intRatOfDigits p.1 + fracRatOfDigits frac))
    else none

def litRat (s : String) : Option ℚ := litRatL s.data

theorem intRatOfDigits_from (a : ℚ) (cs : List Char) :
    cs.foldl (fun acc c => 10 * acc + (charDigit c : ℚ)) a
      = a * 10 ^ cs.length + intRatOfDigits cs := by
  induction cs generalizing a with
  | nil => simp [intRatOfDigits]
  | cons c cs ih =>
    simp only [intRatOfDigits, List.foldl_cons, List.length_cons]
    rw [ih (10 * a + (charDigit c : ℚ)), ih (10 * 0 + (charDigit c : ℚ))]
    ring

theorem intRatOfDigits_eq (cs : List Char) : intRatOfDigits cs = (digitsToNat cs : ℚ) := by
  induction cs with
  | nil => simp [intRatOfDigits, digitsToNat]
  | cons c cs ih =>
    have h1 : intRatOfDigits (c :: cs)
        = (10 * 0 + (charDigit c : ℚ)) * 10 ^ cs.length + intRatOfDigits cs := by
      simp only [intRatOfDigits, List.foldl_cons]
      exact intRatOfDigits_from _ cs
    have h2 : digitsToNat (c :: cs) = (10 * 0 + charDigit c) * 10 ^ cs.length + digitsToNat cs := by
      simp only [digitsToNat, List.foldl_cons]
      exact digitsToNat_from _ cs
    rw [h1, h2, ih]
    push_cast
    ring

theorem fracRatOfDigits_eq (cs : List Char) :
    fracRatOfDigits cs = (digitsToNat cs : ℚ) / 10 ^ cs.length := by
  induction cs with
  | nil => simp [fracRatOfDigits, digitsToNat]
  | cons c cs ih =>
    have h2 : digitsToNat (c :: cs) = (10 * 0 + charDigit c) * 10 ^ cs.length + digitsToNat cs := by
      simp only [digitsToNat, List.foldl_cons]
      exact digitsToNat_from _ cs
    simp only [fracRatOfDigits, List.foldr_cons, List.length_cons] at ih ⊢
    rw [ih, h2, pow_succ]
    have hpow : ((10 : ℚ) ^ cs.length) ≠ 0 := by positivity
    push_cast
    rw [div_eq_div_iff (by norm_num : (10 : ℚ) ≠ 0)
      (by positivity : ((10 : ℚ) ^ cs.length * 10) ≠ 0)]
    field_simp
    ring

theorem applySign_cast (b : Bool) (n : Nat) :
    ((applySign b n : ℤ) : ℚ) = (if b then (-1 : ℚ) else 1) * n := by
  cases b <;> simp [applySign]

/-- `parseDec` (the embedding of `Decimal(<str>)` used by `dc`) agrees with
the independent literal reading `litRat`: parsing is exact, with no rounding
of any kind. -/
theorem parseDecL_exact {cs : List Char} {d : Dec} (h : parseDecL cs = some d) :
    litRatL cs = some d.toRat := by
  unfold parseDecL at h
  unfold litRatL
  cases hp2 : (splitDot (stripSignL cs).2).2 with
  | none =>
    simp only [hp2] at h ⊢
    by_cases hc : (decide ((splitDot (stripSignL cs).2).1 ≠ [])
        && (splitDot (stripSignL cs).2).1.all isDigitCh) = true
    · rw [if_pos hc] at h ⊢
      obtain rfl : Dec.mk (applySign (stripSignL cs).1
          (digitsToNat (splitDot (stripSignL cs).2).1)) 0 = d := by
        exact Option.some.injEq _ _ ▸ h
      simp only [Dec.toRat, pow_zero, div_one, intRatOfDigits_eq]
      rw [← applySign_cast]
    · rw [if_neg hc] at h
      exact absurd h (by simp)
  | some frac =>
    simp only [hp2] at h ⊢
    by_cases hc : (decide ((splitDot (stripSignL cs).2).1 ++ frac ≠ [])
        && (splitDot (stripSignL cs).2).1.all isDigitCh && frac.all isDigitCh) = true
    · rw [if_pos hc] at h ⊢
      obtain rfl : Dec.mk (applySign (stripSignL cs).1
          (digitsToNat ((splitDot (stripSignL cs).2).1 ++ frac))) frac.length = d := by
        exact Option.some.injEq _ _ ▸ h
      simp only [Dec.toRat, intRatOfDigits_eq, fracRatOfDigits_eq]
      rw [digitsToNat_append]
      rw [show ((applySign (stripSignL cs).1
          (digitsToNat (splitDot (stripSignL cs).2).1 * 10 ^ frac.length
            + digitsToNat frac) : ℤ) : ℚ)
          = (if (stripSignL cs).1 then (-1 : ℚ) else 1)
            * (digitsToNat (splitDot (stripSignL cs).2).1 * 10 ^ frac.length
              + digitsToNat frac) from by
        rw [applySign_cast]
        push_cast
        ring]
      have hpow : ((10 : ℚ) ^ frac.length) ≠ 0 := by positivity
      field_simp
    · rw [if_neg hc] at h
      exact absurd h (by simp)

/-- JSON-shaped Python values (wire data).  A numeric wire value is carried
as the exact decimal it denotes: Python parses a JSON number to `float` and
`dc` recovers `Decimal(str(value))`, the shortest decimal representation of
that float, which the embedding identifies the number with. -/
inductive Json where
  | null
  | bool (b : Bool)
  | num (d : Dec)
  | str (s : String)
  | arr (xs : List Json)
  | obj (kvs : List (String × Json))

mutual
/-- Structural equality on JSON values (Python `==` on parsed JSON data). -/
def beqJson : Json → Json → Bool
  | .null, .null => true
  | .bool a, .bool b => a == b
  | .num a, .num b => a == b
  | .str a, .str b => a == b
  | .arr a, .arr b => beqListJ a b
  | .obj a, .obj b => beqKVs a b
  | _, _ => false
def beqListJ : List Json → List Json → Bool
  | [], [] => true
  | x :: xs, y :: ys => beqJson x y && beqListJ xs ys
  | _, _ => false
def beqKVs : List (String × Json) → List (String × Json) → Bool
  | [], [] => true
  | a :: as, b :: bs => (a.1 == b.1) && beqJson a.2 b.2 && beqKVs as bs
  | _, _ => false
end

def rankJ : Json → Nat
  | .null => 0
  | .bool _ => 1
  | .num _ => 2
  | .str _ => 3
  | .arr _ => 4
  | .obj _ => 5

def charListLe : List Char → List Char → Bool
  | [], _ => true
  | _ :: _, [] => false
  | a :: as, b :: bs =>
    if a.toNat < b.toNat then true
    else if b.toNat < a.toNat then false
    else charListLe as bs

def strLeB (a b : String) : Bool := charListLe a.data b.data

def cmpNat (a b : Nat) : Ordering := if a < b then .lt else if b < a then .gt else .eq

def cmpInt (a b : Int) : Ordering := if a < b then .lt else if b < a then .gt else .eq

def cmpBoolO (a b : Bool) : Ordering := cmpNat a.toNat b.toNat

def cmpStr (a b : String) : Ordering := if a = b then .eq else if strLeB a b then .lt else .gt

mutual
def cmpJson : Json → Json → Ordering
  | .null, .null => .eq
  | .bool a, .bool b => cmpBoolO a b
  | .num a, .num b => (cmpInt a.mant b.mant).then (cmpNat a.exp b.exp)
  | .str a, .str b => cmpStr a b
  | .arr a, .arr b => cmpListJ a b
  | .obj a, .obj b => cmpKVs a b
  | a, b => cmpNat (rankJ a) (rankJ b)
def cmpListJ : List Json → List Json → Ordering
  | [], [] => .eq
  | [], _ :: _ => .lt
  | _ :: _, [] => .gt
  | x :: xs, y :: ys => (cmpJson x y).then (cmpListJ xs ys)
def cmpKVs : List (String × Json) → List (String × Json) → Ordering
  | [], [] => .eq
  | [], _ :: _ => .lt
  | _ :: _, [] => .gt
  | a :: as, b :: bs => ((cmpStr a.1 b.1).then (cmpJson a.2 b.2)).then (cmpKVs as bs)
end

def jsonLe (a b : Json) : Bool := cmpJson a b ≠ Ordering.gt

def kvLe (a b : String × Json) : Bool := strLeB a.1 b.1

def insertLe {α : Type} (le : α → α → Bool) (x : α) : List α → List α
  | [] => [x]
  | y :: ys => if le x y then x :: y :: ys else y :: insertLe le x ys

def sortLe {α : Type} (le : α → α → Bool) : List α → List α
  | [] => []
  | x :: xs => insertLe le x (sortLe le xs)

mutual
/-- Canonical form used to embed `DeepDiff(…, ignore_order=True)`: dict
entries sorted by key, list elements sorted by a total structural order, so
that two values compare equal exactly when they are deep-structurally equal
up to dict-key order and list order. -/
def canon : Json → Json
  | .arr xs => .arr (sortLe jsonLe (canonList xs))
  | .obj kvs => .obj (sortLe kvLe (canonKVs kvs))
  | j => j
def canonList : List Json → List Json
  | [] => []
  | x :: xs => canon x :: canonList xs
def canonKVs : List (String × Json) → List (String × Json)
  | [] => []
  | kv :: kvs => (kv.1, canon kv.2) :: canonKVs kvs
end

/-- `not DeepDiff(a, b, ignore_order=True)`: the deep structural equality
used by `BaseSerializable.__eq__` (`http_jto.py` line 161). -/
def deepEqual (a b : Json) : Bool := beqJson (canon a) (canon b)

/-- `inflection.camelize(s, uppercase_first_letter=False)` restricted to
snake_case identifiers: each underscore is dropped and the letter after it
capitalized. -/
def camelizeL : List Char → List Char
  | [] => []
  | '_' :: c :: rest => c.toUpper :: camelizeL rest
  | c :: rest => c :: camelizeL rest

def camelize (s : String) : String := String.mk (camelizeL s.data)

/-- `camel` (`http_jto.py` lines 23–27): strips the trailing reserved-word
underscore marker before camelizing. -/
def camel (s : String) : String :=
  if s.data.getLast? = some '_' then camelize (String.mk s.data.dropLast) else camelize s

/-- `inflection.underscore` restricted to lowerCamelCase identifiers: an
underscore is inserted before each inner capital letter, which is lowered. -/
def underscoreAux : List Char → List Char
  | [] => []
  | c :: rest => if c.isUpper then '_' :: c.toLower :: underscoreAux rest else c :: underscoreAux rest

def underscoreStr (s : String) : String :=
  match s.data with
  | [] => ""
  | c :: rest => String.mk (c.toLower :: underscoreAux rest)

/-- The reserved-identifier tuple of `http_jto.py` line 17. -/
def reservedNames : List String :=
  ["type", "id", "list", "except", "from", "to", "open", "sum", "uuid"]

/-- `make_key` (nested in `Serializable.from_json`, lines 180–185):
wire key → logical field name, suffixing reserved identifiers with `_`. -/
def make_key (k : String) : String :=
  let u := underscoreStr k
  if reservedNames.contains u then u ++ "_" else u

theorem beqJson_refl_bound : ∀ (n : Nat) (j : Json), sizeOf j ≤ n → beqJson j j = true := by
  intro n
  induction n with
  | zero =>
    intro j hj
    exfalso
    cases j <;> simp at hj
  | succ n ih =>
    intro j hj
    cases j with
    | null => rfl
    | bool b => simp [beqJson]
    | num d => simp [beqJson]
    | str s => simp [beqJson]
    | arr xs =>
      show beqListJ xs xs = true
      have hx : ∀ x ∈ xs, sizeOf x ≤ n := by
        intro x hmem
        have h1 := List.sizeOf_lt_of_mem hmem
        have h2 : sizeOf (Json.arr xs) = 1 + sizeOf xs := by simp
        omega
      clear hj
      induction xs with
      | nil => rfl
      | cons x xs ihx =>
        simp only [beqListJ, Bool.and_eq_true]
        refine ⟨ih x (hx x (List.mem_cons_self _ _)), ?_⟩
        exact ihx (fun y hy => hx y (List.mem_cons_of_mem _ hy))
    | obj kvs =>
      show beqKVs kvs kvs = true
      have hx : ∀ kv ∈ kvs, sizeOf (Prod.snd kv) ≤ n := by
        intro kv hmem
        obtain ⟨k, v⟩ := kv
        have h1 := List.sizeOf_lt_of_mem hmem
        have h2 : sizeOf (Json.obj kvs) = 1 + sizeOf kvs := by simp
        have h3 : sizeOf (k, v) = 1 + sizeOf k + sizeOf v := by simp
        simp only [h3] at h1
        simp only []
        omega
      clear hj
      induction kvs with
      | nil => rfl
      | cons kv kvs ihx =>
        simp only [beqKVs, Bool.and_eq_true]
        refine ⟨⟨by simp, ih kv.2 (hx kv (List.mem_cons_self _ _))⟩, ?_⟩
        exact ihx (fun y hy => hx y (List.mem_cons_of_mem _ hy))

theorem beqJson_refl (j : Json) : beqJson j j = true :=
  beqJson_refl_bound (sizeOf j) j (Nat.le_refl _)

def Json.isNull : Json → Bool
  | .null => true
  | _ => false

mutual
/-- `BaseSerializable.__dict` (lines 108–132) on raw JSON-shaped values:
dict keys (strings) pass through `__dict` unchanged and values recurse,
entries whose value is `None` being dropped unless `keep_null`; iterables
recurse with the same filter; scalars fall through to the final `else`. -/
def dictConvJson (keepNull : Bool) : Json → Json
  | .obj kvs => .obj (dictConvKVs keepNull kvs)
  | .arr xs => .arr (dictConvList keepNull xs)
  | j => j
def dictConvList (keepNull : Bool) : List Json → List Json
  | [] => []
  | x :: xs =>
    if keepNull || !x.isNull then dictConvJson keepNull x :: dictConvList keepNull xs
    else dictConvList keepNull xs
def dictConvKVs (keepNull : Bool) : List (String × Json) → List (String × Json)
  | [] => []
  | kv :: kvs =>
    if keepNull || !kv.2.isNull then (kv.1, dictConvJson keepNull kv.2) :: dictConvKVs keepNull kvs
    else dictConvKVs keepNull kvs
end

inductive PyErr where
  | typeError
  | valueError (msg : String)
  | invalidOperation
  | keyError
  | attributeError
  | jsonDecodeError
  | runtimeError (cls : String) (objType : String) (payload : Json)

/-- A value as it sits in a decoded keyword-argument dict or in a model
field: either a `Decimal` produced by `dc`, or a raw JSON-shaped value. -/
inductive PyVal where
  | dec (d : Dec)
  | raw (j : Json)

def PyVal.isNone : PyVal → Bool
  | .raw .null => true
  | _ => false

/-- `dc` (`http_jto.py` lines 89–95): `None ↦ None`; a float goes through
`Decimal(str(value))` — identified here with its shortest decimal form,
see `Json.num`; everything else goes to the `Decimal` constructor, which
parses numeric strings exactly, accepts ints/bools/Decimals, and raises
for lists and dicts. -/
def dc : PyVal → Except PyErr (Option Dec)
  | .raw .null => .ok none
  | .dec d => .ok (some d)
  | .raw (.num d) => .ok (some d)
  | .raw (.str s) =>
    match parseDec s with
    | some d => .ok (some d)
    | none => .error .invalidOperation
  | .raw (.bool b) => .ok (some (Dec.mk (if b then 1 else 0) 0))
  | .raw (.arr _) => .error .typeError
  | .raw (.obj _) => .error .typeError

structure EnumMeta where
  clsName : String
  members : List (String × String)

/-- `BaseSerializable.to_enum` (lines 134–145) for string-valued enums,
over an `EnumMeta` listing `(name, value)` members: `None` passes through,
`obj(source)` looks a member up by value, on `ValueError` `obj[source]`
looks it up by name, and failing both raises `ValueError` naming the enum
class. -/
def to_enum (source : PyVal) (obj : EnumMeta) : Except PyErr (Option (String × String)) :=
  match source with
  | .raw .null => .ok none
  | .raw (.str s) =>
    match obj.members.find? (fun m => m.2 == s) with
    | some m => .ok (some m)
    | none =>
      match obj.members.find? (fun m => m.1 == s) with
      | some m => .ok (some m)
      | none => .error (.valueError ("Unable to extract Enum from " ++ obj.clsName))
  | _ => .error (.valueError ("Unable to extract Enum from " ++ obj.clsName))

/-- Modelled from the spec: the `Side` enum of the model module
(`src/models/http_api_models.py` is not under `src/`), a string-valued
enum with wire values `"buy"`/`"sell"`. -/
def sideMeta : EnumMeta := { clsName := "Side", members := [("BUY", "buy"), ("SELL", "sell")] }

/-- Modelled from the spec: a representative SchemaVariant class (the
concrete model classes live in `src/models/http_api_models.py`, which is
absent from `src/`; `http_jto.py` supplies only the generic machinery).
It has the shape the spec's SchemaVariant contract describes: reserved-word
fields `id_`, `type_`, `from_` stored as given, an exact-decimal `price`
field the constructor passes through `dc`, and an enum `side` field passed
through `to_enum(…, Side)`. -/
structure OrderModel where
  id_ : PyVal
  type_ : PyVal
  from_ : PyVal
  price : Option Dec
  side : Option (String × String)

/-- Modelled from the spec: the representative variant's constructor;
failures of `dc` / `to_enum` escape it (`from_json` catches `TypeError`
only). -/
def mkOrder (i t f p s : PyVal) : Except PyErr OrderModel := do
  let pd ← dc p
  let sm ← to_enum s sideMeta
  return { id_ := i, type_ := t, from_ := f, price := pd, side := sm }

def ctorParams : List String := ["id_", "type_", "from_", "price", "side"]

def lookupPV (k : String) : List (String × PyVal) → Option PyVal
  | [] => none
  | kv :: rest => if kv.1 == k then some kv.2 else lookupPV k rest

def getArg (data : List (String × PyVal)) (k : String) : PyVal :=
  (lookupPV k data).getD (.raw .null)

/-- `cls(**data)`: succeeds when the keyword set matches the constructor
parameter set exactly (every key a parameter and every parameter supplied);
otherwise Python raises `TypeError`. -/
def callCtor (data : List (String × PyVal)) : Except PyErr OrderModel :=
  if data.all (fun kv => ctorParams.contains kv.1)
      && ctorParams.all (fun p => (lookupPV p data).isSome) then
    mkOrder (getArg data "id_") (getArg data "type_") (getArg data "from_")
      (getArg data "price") (getArg data "side")
  else .error .typeError

/-- Python dict assignment: replace in place when the key exists, else
append. -/
def dictInsert (m : List (String × PyVal)) (k : String) (v : PyVal) : List (String × PyVal) :=
  if m.any (fun kv => kv.1 == k) then m.map (fun kv => if kv.1 == k then (k, v) else kv)
  else m ++ [(k, v)]

/-- The per-value conversion of `from_json` lines 191–195: ints, floats
and Decimals — but not bools — go through `dc`; everything else is stored
raw. -/
def convVal : Json → PyVal
  | .num d => .dec d
  | j => .raw j

/-- The keyword dict built by `from_json`'s loop over `obj.items()`. -/
def buildData (kvs : List (String × Json)) : List (String × PyVal) :=
  kvs.foldl (fun m kv => dictInsert m (make_key kv.1) (convVal kv.2)) []

/-- The `obj in (None, [], {}, [{}])` test of `from_json` line 187 (`in`
compares elements with `==`). -/
def isEmptyJson : Json → Bool
  | .null => true
  | .arr [] => true
  | .obj [] => true
  | .arr [.obj []] => true
  | _ => false

inductive PyData where
  | json (j : Json)
  | inst (m : OrderModel)

structure FromJsonOut where
  res : Except PyErr (Option OrderModel)
  warned : Bool

def jsonTypeName : Json → String
  | .null => "NoneType"
  | .bool _ => "bool"
  | .num _ => "float"
  | .str _ => "str"
  | .arr _ => "list"
  | .obj _ => "dict"

/-- Outcome of the `try`/`except TypeError` around the constructor calls
in `from_json` (lines 186–204): a `TypeError` becomes
`RuntimeError('could not get {cls} from {type(obj)} as {obj}')` when
`eraise`, else `warnings.warn(…)` plus `None`; other exceptions escape. -/
def ctorOut (cls : String) (j : Json) (eraise : Bool) (r : Except PyErr OrderModel) : FromJsonOut :=
  match r with
  | .ok m => { res := .ok (some m), warned := false }
  | .error .typeError =>
    if eraise then { res := .error (.runtimeError cls (jsonTypeName j) j), warned := false }
    else { res := .ok none, warned := true }
  | .error e => { res := .error e, warned := false }

def emptyInitData : List (String × PyVal) := ctorParams.map (fun k => (k, .raw .null))

def emptyOrder : OrderModel :=
  { id_ := .raw .null, type_ := .raw .null, from_ := .raw .null, price := none, side := none }

/-- `Serializable.from_json` (lines 177–204) at the representative variant.
An empty-ish input is built from `_empty_init` (every parameter `None`); a
dict is decoded key by key through `make_key` and the numeric conversion;
passing an actual instance hits the `in` comparison of line 187 first,
whose `==` against `None` reflects into `BaseSerializable.__eq__` and
raises `ValueError`; any other input falls off the `if`/`elif` chain and
returns `None`. -/
def from_json (d : PyData) (eraise : Bool) : FromJsonOut :=
  match d with
  | .inst _ =>
    { res := .error (.valueError "Impossible to directly compare non-models objects"),
      warned := false }
  | .json j =>
    if isEmptyJson j then ctorOut "OrderModel" j eraise (callCtor emptyInitData)
    else
      match j with
      | .obj kvs => ctorOut "OrderModel" j eraise (callCtor (buildData kvs))
      | _ => { res := .ok none, warned := false }

def convPy (keepNull : Bool) : PyVal → Json
  | .dec d => .str (renderDec d)
  | .raw j => dictConvJson keepNull j

def fieldEntry (keepNull : Bool) (key : String) (isNone : Bool) (enc : Json) :
    List (String × Json) :=
  if keepNull || !isNone then [(camel key, enc)] else []

/-- `BaseSerializable.to_json`/`__dict` on the representative variant:
walks `__dict__` in field-assignment order, camelizes each field name,
encodes `Decimal`s via `str` and enum members via `.value`; `None`-valued
fields survive only under `keep_null`. -/
def OrderModel.to_json (x : OrderModel) (keepNull : Bool) : Json :=
  .obj (fieldEntry keepNull "id_" x.id_.isNone (convPy keepNull x.id_)
    ++ fieldEntry keepNull "type_" x.type_.isNone (convPy keepNull x.type_)
    ++ fieldEntry keepNull "from_" x.from_.isNone (convPy keepNull x.from_)
    ++ fieldEntry keepNull "price" x.price.isNone
        ((x.price.map (fun d => Json.str (renderDec d))).getD .null)
    ++ fieldEntry keepNull "side" x.side.isNone
        ((x.side.map (fun m => Json.str m.2)).getD .null))

inductive PyOperand where
  | model (m : OrderModel)
  | nonModel (j : Json)

/-- `BaseSerializable.__eq__` (lines 159–163): an operand without
`__model__` raises `ValueError`; two models compare by `DeepDiff` of their
nulls-kept serializations with `ignore_order=True`. -/
def modelEq (a : OrderModel) (other : PyOperand) : Except PyErr Bool :=
  match other with
  | .model b => .ok (deepEqual (a.to_json true) (b.to_json true))
  | .nonModel _ => .error (.valueError "Impossible to directly compare non-models objects")

inductive ExtractResult where
  | many (ms : List (Option OrderModel))
  | one (m : Option OrderModel)
  | passthru (m : OrderModel)
  | pyNone

/-- `extract_to_model` (lines 30–48): a list maps `from_json` over its
items (the model classes all carry `__model__`), a dict decodes directly,
an instance of the class passes through, and anything else — `None`
included — returns `None`. -/
def extract_to_model (data : PyData) (eraise : Bool) : Except PyErr ExtractResult :=
  match data with
  | .json (.arr xs) =>
    (xs.mapM (fun j => (from_json (.json j) eraise).res)).map ExtractResult.many
  | .json (.obj kvs) =>
    ((from_json (.json (.obj kvs)) eraise).res).map ExtractResult.one
  | .inst m => .ok (.passthru m)
  | .json _ => .ok .pyNone

/-- A raw line delivered by `iter_lines`: either text `json.loads` rejects,
or the JSON value it parses to (the parser itself is the external `json`
library). -/
inductive RawLine where
  | malformed (raw : String)
  | line (j : Json)

def lookupJ (k : String) : List (String × Json) → Option Json
  | [] => none
  | kv :: rest => if kv.1 == k then some kv.2 else lookupJ k rest

/-- `self.event_filter == mes.get('event')`: `dict.get` yields `None` for a
missing key, and a Python string equals only an equal string. -/
def eventMatches (f : String) (o : Option Json) : Bool :=
  match o with
  | some (.str s) => s == f
  | _ => false

/-- `queue.put(self.model.from_json(…))` inside the `try` of
`HTTPApiStreaming.run`: a decode `RuntimeError` is caught and logged
(nothing enqueued); any other exception escapes and kills the thread. -/
def deliverDecode (j : Json) : Except PyErr (Option (Option OrderModel)) :=
  match (from_json (.json j) true).res with
  | .ok m => .ok (some m)
  | .error (.runtimeError _ _ _) => .ok none
  | .error e => .error e

/-- One iteration of the message loop of `HTTPApiStreaming.run` (lines
105–116): `ok none` means the line was dropped, `ok (some out)` means
`out` was `queue.put`; an error terminates `run` — the `except` clause
catches `RuntimeError` only, so `json.loads` failures (`JSONDecodeError`,
a `ValueError` subclass), `mes.get` on a non-dict (`AttributeError`) and
`mes[self.event_filter]` on a missing key (`KeyError`) all escape. -/
def processLine (filter : Option String) : RawLine → Except PyErr (Option (Option OrderModel))
  | .malformed _ => .error .jsonDecodeError
  | .line j =>
    match filter with
    | some f =>
      if f == "" then deliverDecode j
      else
        match j with
        | .obj kvs =>
          if eventMatches f (lookupJ "event" kvs) then
            match lookupJ f kvs with
            | some payload => deliverDecode payload
            | none => .error .keyError
          else .ok none
        | _ => .error .attributeError
    | none => deliverDecode j

/-- The message loop of `HTTPApiStreaming.run` over a finite list of raw
lines: queue contents in arrival order, and the exception (if any) that
terminated the loop, leaving the remaining lines unread. -/
def runStream (filter : Option String) : List RawLine → List (Option OrderModel) × Option PyErr
  | [] => ([], none)
  | l :: rest =>
    match processLine filter l with
    | .ok (some out) =>
      let r := runStream filter rest
      (out :: r.1, r.2)
    | .ok none => runStream filter rest
    | .error e => ([], some e)

structure JWTConfig where
  appid : String
  client_id : String
  shared_key : String
  ttl : Int
  scopes : List String

/-- The signed claim set produced by `JWTAuth.make_token` (`http_api.py`
lines 49–58); the HS256 signature is an external fixed encoding of exactly
these claims, so a produced token is identified with them. -/
structure TokenClaims where
  iss : String
  sub : String
  iat : Int
  exp : Int
  aud : List String

def make_token (c : JWTConfig) (now : Int) : TokenClaims :=
  { iss := c.client_id, sub := c.appid, iat := now, exp := now + c.ttl, aud := c.scopes }

structure JWTAuthState where
  token : Option TokenClaims

/-- The state of a `JWTAuth` at the moment `__init__` (lines 39–47)
returns: `self.token = None` has been assigned and `self.start()` called;
`Thread.start` returns without waiting for `run` to execute, so the first
`make_token` assignment need not have happened yet. -/
def JWTAuth.construct (_c : JWTConfig) : JWTAuthState := { token := none }

/-- One iteration of the `while True` loop of `JWTAuth.run` (lines 60–63):
assign a fresh token, then sleep for `ttl`. -/
def JWTAuth.runIter (c : JWTConfig) (now : Int) (_s : JWTAuthState) : JWTAuthState :=
  { token := some (make_token c now) }

/-- The background thread's effect after its loop has woken at the given
times (in order). -/
def JWTAuth.runSteps (c : JWTConfig) (times : List Int) (s : JWTAuthState) : JWTAuthState :=
  times.foldl (fun st t => JWTAuth.runIter c t st) s

def current_api : String := "2.0"

/-- `HTTPApi._mk_account` (lines 196–201). -/
def mk_account (account : Option String) (version : Option String) :
    List (String × Option String) :=
  if version == some "3.0" then [("accountId", account)] else [("account", account)]

/-- Python truthiness of an optional string (`if account:`; the left
operand of `version or self.version`): `None` and `""` are falsy. -/
def truthy : Option String → Bool
  | none => false
  | some s => !(s == "")

/-- `version or self.version`. -/
def orVersion (version : Option String) (selfVersion : String) : String :=
  match version with
  | some v => if v == "" then selfVersion else v
  | none => selfVersion

/-- The account parameter attached by `HTTPApi.get_orders` (lines
577–585): `params.update(_mk_account(account, version or self.version))`,
guarded by `if account:`. -/
def get_orders_accountParams (account : Option String) (version : Option String)
    (selfVersion : String) : List (String × Option String) :=
  if truthy account then mk_account account (some (orVersion version selfVersion)) else []

/-- The account parameter attached by `HTTPApi.get_active_orders` (lines
597–603): `params.update(_mk_account(account, version))` — the raw
per-call `version`, not `version or self.version`, even though the same
method resolves its decode model with `version or self.version`. -/
def get_active_orders_accountParams (account : Option String) (version : Option String)
    (_selfVersion : String) : List (String × Option String) :=
  mk_account account version

/-- A valid raw value for one of the passthrough string fields: a Python
string or `None`. -/
def optPy (o : Option String) : PyVal := .raw ((o.map Json.str).getD .null)

/-- The members of the modelled `Side` enum, as a Lean type (used to range
over valid enum field values). -/
inductive Side where
  | buy
  | sell

def Side.member : Side → String × String
  | .buy => ("BUY", "buy")
  | .sell => ("SELL", "sell")

theorem camel_id : camel "id_" = "id" := rfl

theorem camel_type : camel "type_" = "type" := rfl

theorem camel_from : camel "from_" = "from" := rfl

theorem camel_price : camel "price" = "price" := rfl

theorem camel_side : camel "side" = "side" := rfl

/-- `to_json(keep_null=True)` on the representative variant, written out:
every field is kept, keys are camelized with the reserved-word marker
dropped. -/
theorem to_json_mk (w1 w2 w3 : PyVal) (p : Option Dec) (s : Option (String × String)) :
    (OrderModel.mk w1 w2 w3 p s).to_json true
    = .obj [("id", convPy true w1), ("type", convPy true w2), ("from", convPy true w3),
        ("price", (p.map (fun d => Json.str (renderDec d))).getD .null),
        ("side", (s.map (fun m => Json.str m.2)).getD .null)] := by
  simp [OrderModel.to_json, fieldEntry, camel_id, camel_type, camel_from, camel_price,
    camel_side]

theorem make_key_id : make_key "id" = "id_" := rfl

theorem make_key_type : make_key "type" = "type_" := rfl

theorem make_key_from : make_key "from" = "from_" := rfl

theorem make_key_price : make_key "price" = "price" := rfl

theorem make_key_side : make_key "side" = "side" := rfl

theorem bd_step1 (v1 v2 v3 v4 v5 : Json) :
    buildData [("id", v1), ("type", v2), ("from", v3), ("price", v4), ("side", v5)]
    = dictInsert (dictInsert (dictInsert (dictInsert (dictInsert []
        (make_key "id") (convVal v1)) (make_key "type") (convVal v2))
        (make_key "from") (convVal v3)) (make_key "price") (convVal v4))
        (make_key "side") (convVal v5) := by
  unfold buildData
  simp only [List.foldl_cons, List.foldl_nil]

theorem dictInsert_append (m : List (String × PyVal)) (k : String) (v : PyVal)
    (h : m.any (fun kv => kv.1 == k) = false) : dictInsert m k v = m ++ [(k, v)] := by
  unfold dictInsert
  rw [h]
  simp

set_option maxHeartbeats 400000 in
theorem buildData_wire (v1 v2 v3 v4 v5 : Json) :
    buildData [("id", v1), ("type", v2), ("from", v3), ("price", v4), ("side", v5)]
    = [("id_", convVal v1), ("type_", convVal v2), ("from_", convVal v3),
        ("price", convVal v4), ("side", convVal v5)] := by
  rw [bd_step1, make_key_id, make_key_type, make_key_from, make_key_price, make_key_side]
  rw [show dictInsert [] "id_" (convVal v1) = [("id_", convVal v1)] from rfl]
  rw [dictInsert_append ([("id_", convVal v1)]) "type_" (convVal v2) rfl]
  rw [dictInsert_append ([("id_", convVal v1)] ++ [("type_", convVal v2)]) "from_"
    (convVal v3) rfl]
  rw [dictInsert_append (([("id_", convVal v1)] ++ [("type_", convVal v2)])
    ++ [("from_", convVal v3)]) "price" (convVal v4) rfl]
  rw [dictInsert_append ((([("id_", convVal v1)] ++ [("type_", convVal v2)])
    ++ [("from_", convVal v3)]) ++ [("price", convVal v4)]) "side" (convVal v5) rfl]
  simp

set_option maxHeartbeats 400000 in
theorem callCtor_wire (w1 w2 w3 w4 w5 : PyVal) :
    callCtor [("id_", w1), ("type_", w2), ("from_", w3), ("price", w4), ("side", w5)]
    = mkOrder w1 w2 w3 w4 w5 := by
  unfold callCtor
  rw [if_pos (show (List.all [("id_", w1), ("type_", w2), ("from_", w3), ("price", w4),
      ("side", w5)] (fun kv => ctorParams.contains kv.1)
      && ctorParams.all (fun p => (lookupPV p [("id_", w1), ("type_", w2), ("from_", w3),
        ("price", w4), ("side", w5)]).isSome)) = true from rfl)]
  rfl

theorem from_json_obj (kv : String × Json) (rest : List (String × Json)) (er : Bool) :
    from_json (.json (.obj (kv :: rest))) er
    = ctorOut "OrderModel" (.obj (kv :: rest)) er (callCtor (buildData (kv :: rest))) := rfl

set_option maxHeartbeats 400000 in
theorem from_json_wire (v1 v2 v3 v4 v5 : Json) :
    from_json (.json (.obj [("id", v1), ("type", v2), ("from", v3), ("price", v4),
        ("side", v5)])) true
    = ctorOut "OrderModel"
        (.obj [("id", v1), ("type", v2), ("from", v3), ("price", v4), ("side", v5)]) true
        (mkOrder (convVal v1) (convVal v2) (convVal v3) (convVal v4) (convVal v5)) := by
  rw [from_json_obj, buildData_wire, callCtor_wire]

/-- `dc` inverts the `str(Decimal)` rendering that `to_json` emits. -/
theorem dc_render (d : Dec) : dc (.raw (.str (renderDec d))) = .ok (some d) := by
  simp [dc, parseDec_renderDec]

theorem mkOrder_render (w1 w2 w3 w5 : PyVal) (d : Dec) :
    mkOrder w1 w2 w3 (.raw (.str (renderDec d))) w5 = mkOrder w1 w2 w3 (.dec d) w5 := by
  unfold mkOrder
  rw [show dc (.raw (.str (renderDec d))) = dc (.dec d) from by rw [dc_render]; rfl]

theorem convVal_str (s : String) : convVal (.str s) = .raw (.str s) := rfl

theorem convVal_null : convVal .null = .raw .null := rfl

set_option maxHeartbeats 1000000 in
/-- C1: for the supported schema variant shape and every instance `x` built
from valid field values — including the reserved-word fields `id_`,
`type_`, `from_`, an exact-decimal field and an enum field — decoding the
nulls-kept encoding of `x` returns an instance equal to `x`:
`from_json(to_json(x, keep_null=True)) == x`. -/
theorem c1_round_trip (i t f : Option String) (p : Option Dec) (sd : Option Side) :
    ∃ y, (from_json (.json ((OrderModel.mk (optPy i) (optPy t) (optPy f) p
        (sd.map Side.member)).to_json true)) true).res = .ok (some y)
      ∧ modelEq y (.model (OrderModel.mk (optPy i) (optPy t) (optPy f) p
          (sd.map Side.member))) = .ok true := by
  refine ⟨OrderModel.mk (optPy i) (optPy t) (optPy f) p (sd.map Side.member), ?_, ?_⟩
  · rw [show optPy i = .raw ((i.map Json.str).getD .null) from rfl,
      show optPy t = .raw ((t.map Json.str).getD .null) from rfl,
      show optPy f = .raw ((f.map Json.str).getD .null) from rfl,
      to_json_mk, from_json_wire]
    cases i <;> cases t <;> cases f <;> cases p <;> rcases sd with _ | s
    all_goals try cases s
    all_goals simp only [Option.map_some', Option.map_none', Option.getD_some,
      Option.getD_none, Side.member, convVal_str, convVal_null]
    all_goals try rw [mkOrder_render]
    all_goals rfl
  · exact congrArg Except.ok (beqJson_refl _)

def jwtCfgEx : JWTConfig :=
  { appid := "app-id", client_id := "client-id", shared_key := "secret", ttl := 3600,
    scopes := ["symbols", "feed"] }

/-- C2, counterexample: the claim says no reader can ever observe an
uninitialized/null token after `JWTAuth.__init__` returns, because
construction blocks until the first token exists.  It does not:
`__init__` assigns `self.token = None` and calls `self.start()`, and
`Thread.start` returns without waiting for `run`, so at the moment
construction completes the observable token is still `None`. -/
theorem c2_token_none_at_construct : (JWTAuth.construct jwtCfgEx).token = none := rfl

/-- C2 (amended): construction itself leaves the token `None`; but once the
background `run` loop has executed at least one iteration, every snapshot
of the token is a signed claim set minted at one of the loop's wake-up
times — never null from then on. -/
theorem c2_token_after_first_iteration (c : JWTConfig) (times : List Int)
    (s : JWTAuthState) (h : times ≠ []) :
    ∃ now, (JWTAuth.runSteps c times s).token = some (make_token c now) ∧ now ∈ times := by
  induction times generalizing s with
  | nil => exact absurd rfl h
  | cons t rest ih =>
    cases rest with
    | nil => exact ⟨t, rfl, by simp⟩
    | cons t2 rest2 =>
      obtain ⟨now, hnow, hmem⟩ :=
        ih (JWTAuth.runIter c t s) (by simp)
      exact ⟨now, hnow, List.mem_cons_of_mem _ hmem⟩

theorem c2_token_witness :
    ([1000] : List Int) ≠ [] ∧
    ∃ now, (JWTAuth.runSteps jwtCfgEx [1000] (JWTAuth.construct jwtCfgEx)).token
        = some (make_token jwtCfgEx now) ∧ now ∈ ([1000] : List Int) :=
  ⟨by decide, c2_token_after_first_iteration jwtCfgEx [1000] (JWTAuth.construct jwtCfgEx)
    (by decide)⟩

/-- C9: the account reference key.  `get_orders` behaves as the claim says:
whenever an account is attached, the key is `accountId` exactly when the
effective version (`version or self.version`) is `3.0`, else `account`.
But `get_active_orders` hands `_mk_account` the raw per-call `version`:
with no per-call version and a client default of `"3.0"` it emits
`account` where the claim requires `accountId` (the same method resolves
its decode model with `version or self.version`, so the slip is internal
to `get_active_orders`). -/
theorem c9_account_key_divergence :
    (∀ acc v dflt, truthy acc = true →
      get_orders_accountParams acc v dflt
        = [(if orVersion v dflt = "3.0" then "accountId" else "account", acc)])
    ∧ get_active_orders_accountParams (some "A1") none "3.0" = [("account", some "A1")]
    ∧ orVersion none "3.0" = "3.0" := by
  refine ⟨?_, rfl, rfl⟩
  intro acc v dflt hacc
  unfold get_orders_accountParams
  rw [if_pos hacc]
  unfold mk_account
  by_cases hv : orVersion v dflt = "3.0"
  · simp [hv]
  · have : (some (orVersion v dflt) == some "3.0") = false := by
      simp [hv]
    rw [this]
    simp [hv]

theorem c9_account_key_witness :
    truthy (some "A1") = true ∧
    get_orders_accountParams (some "A1") (some "3.0") "2.0" = [("accountId", some "A1")] := by
  constructor
  · rfl
  · rw [c9_account_key_divergence.1 (some "A1") (some "3.0") "2.0" rfl]
    rfl

/-- C10: `to_enum` maps `None` to `None`; a source equal to a member's wire
value returns that member (value lookup first); a source that is no value
but is a member's name returns that member; and a source that is neither
raises `ValueError` whose message names the enum class — no unrelated
member is ever returned, as the `find?` characterizations pin the result
to a matching member. -/
theorem c10_to_enum_cases (e : EnumMeta) :
    (to_enum (.raw .null) e = .ok none)
    ∧ (∀ s m, e.members.find? (fun m => m.2 == s) = some m →
        to_enum (.raw (.str s)) e = .ok (some m))
    ∧ (∀ s m, e.members.find? (fun m => m.2 == s) = none →
        e.members.find? (fun m => m.1 == s) = some m →
        to_enum (.raw (.str s)) e = .ok (some m))
    ∧ (∀ s, e.members.find? (fun m => m.2 == s) = none →
        e.members.find? (fun m => m.1 == s) = none →
        to_enum (.raw (.str s)) e
          = .error (.valueError ("Unable to extract Enum from " ++ e.clsName))) := by
  have hred : ∀ s, to_enum (.raw (.str s)) e
      = (match e.members.find? (fun m => m.2 == s) with
        | some m => Except.ok (some m)
        | none =>
          match e.members.find? (fun m => m.1 == s) with
          | some m => Except.ok (some m)
          | none =>
            Except.error (.valueError ("Unable to extract Enum from " ++ e.clsName))) :=
    fun _ => rfl
  refine ⟨rfl, ?_, ?_, ?_⟩
  · intro s m h
    rw [hred s, h]
  · intro s m h1 h2
    rw [hred s, h1, h2]
  · intro s h1 h2
    rw [hred s, h1, h2]

theorem c10_to_enum_witness :
    (sideMeta.members.find? (fun m => m.2 == "buy") = some ("BUY", "buy"))
    ∧ to_enum (.raw (.str "buy")) sideMeta = .ok (some ("BUY", "buy"))
    ∧ (sideMeta.members.find? (fun m => m.2 == "SELL") = none)
    ∧ (sideMeta.members.find? (fun m => m.1 == "SELL") = some ("SELL", "sell"))
    ∧ to_enum (.raw (.str "SELL")) sideMeta = .ok (some ("SELL", "sell"))
    ∧ to_enum (.raw (.str "limit")) sideMeta
        = .error (.valueError ("Unable to extract Enum from Side")) :=
  ⟨rfl, (c10_to_enum_cases sideMeta).2.1 "buy" ("BUY", "buy") rfl, rfl, rfl,
    (c10_to_enum_cases sideMeta).2.2.1 "SELL" ("SELL", "sell") rfl rfl,
    (c10_to_enum_cases sideMeta).2.2.2 "limit" rfl rfl⟩

theorem dc_str_red (s : String) :
    dc (.raw (.str s)) = (match parseDec s with
      | some d => Except.ok (some d)
      | none => Except.error .invalidOperation) := rfl

set_option maxHeartbeats 400000 in
/-- C5: a numeric wire value is parsed by `dc` into an exact
arbitrary-precision decimal: whenever `dc` accepts a wire string, the
decimal it returns has exactly the rational value of the literal (checked
against the independent reading `litRat`); in particular the wire value
`"503.75"` becomes the decimal `50375·10⁻²`, whose value is exactly
`503.75`, and the decode seam places exactly that decimal in the `price`
field — both for the string form and for a JSON number. -/
theorem c5_numeric_exact :
    (∀ s d, dc (.raw (.str s)) = .ok (some d) → litRat s = some d.toRat)
    ∧ dc (.raw (.str "503.75")) = .ok (some (Dec.mk 50375 2))
    ∧ (Dec.mk 50375 2).toRat = (503.75 : ℚ)
    ∧ (from_json (.json (.obj [("id", .null), ("type", .null), ("from", .null),
        ("price", .str "503.75"), ("side", .null)])) true).res
      = .ok (some (OrderModel.mk (.raw .null) (.raw .null) (.raw .null)
          (some (Dec.mk 50375 2)) none))
    ∧ (from_json (.json (.obj [("id", .null), ("type", .null), ("from", .null),
        ("price", .num (Dec.mk 50375 2)), ("side", .null)])) true).res
      = .ok (some (OrderModel.mk (.raw .null) (.raw .null) (.raw .null)
          (some (Dec.mk 50375 2)) none)) := by
  refine ⟨?_, rfl, by norm_num [Dec.toRat], rfl, rfl⟩
  intro s d h
  rw [dc_str_red] at h
  cases hp : parseDec s with
  | none => rw [hp] at h; exact absurd h (by simp)
  | some d' =>
    rw [hp] at h
    have hd : d' = d := by
      injection h with h1
      injection h1
    subst hd
    exact parseDecL_exact hp

theorem c5_numeric_exact_witness :
    dc (.raw (.str "503.75")) = .ok (some (Dec.mk 50375 2))
    ∧ litRat "503.75" = some (Dec.mk 50375 2).toRat :=
  ⟨rfl, c5_numeric_exact.1 "503.75" (Dec.mk 50375 2) rfl⟩

theorem from_json_red (j : Json) (er : Bool) :
    from_json (.json j) er
    = (if isEmptyJson j then ctorOut "OrderModel" j er (callCtor emptyInitData)
      else match j with
        | .obj kvs => ctorOut "OrderModel" j er (callCtor (buildData kvs))
        | _ => { res := .ok none, warned := false }) := rfl

/-- C7, counterexample: the claim says every empty/absent input — null
included — produces an empty-shaped model instance *also through the
`extract_to_model` seam*.  It does not: `extract_to_model(None, M)` falls
through every branch and returns `None`, and `extract_to_model([], M)`
returns the empty list, not an instance. -/
theorem c7_extract_empty_counterexample :
    extract_to_model (.json .null) true = .ok .pyNone
    ∧ extract_to_model (.json (.arr [])) true = .ok (.many []) :=
  ⟨rfl, rfl⟩

/-- C7 (amended): through `from_json` directly, every empty input (`None`,
`[]`, `{}`, `[{}]`) decodes to the instance with every constructor field
unset, raising nothing; through `extract_to_model` this holds for an empty
mapping, while an empty list yields an empty list and a null input yields
`None`. -/
theorem c7_empty_decode :
    (∀ j er, isEmptyJson j = true →
      from_json (.json j) er = { res := .ok (some emptyOrder), warned := false })
    ∧ extract_to_model (.json (.obj [])) true = .ok (.one (some emptyOrder))
    ∧ emptyOrder.id_ = .raw .null ∧ emptyOrder.type_ = .raw .null
    ∧ emptyOrder.from_ = .raw .null ∧ emptyOrder.price = none ∧ emptyOrder.side = none := by
  refine ⟨?_, rfl, rfl, rfl, rfl, rfl, rfl⟩
  intro j er h
  rw [from_json_red, if_pos h]
  rfl

theorem c7_empty_decode_witness :
    isEmptyJson (.arr [Json.obj []]) = true
    ∧ from_json (.json (.arr [Json.obj []])) false
        = { res := .ok (some emptyOrder), warned := false } :=
  ⟨rfl, c7_empty_decode.1 (.arr [Json.obj []]) false rfl⟩

/-- C8: when the input shape does not match the variant's field set, the
constructor call raises `TypeError` and `from_json` turns it into a hard
`RuntimeError` naming the target class and carrying the payload when
`eraise=True`, or into a warning plus a `None` result when `eraise=False`
— and `eraise` is an argument of the call, not global state. -/
theorem c8_strict_lenient (kvs : List (String × Json))
    (hne : isEmptyJson (.obj kvs) = false)
    (hmismatch : callCtor (buildData kvs) = .error .typeError) :
    from_json (.json (.obj kvs)) true
      = { res := .error (.runtimeError "OrderModel" "dict" (.obj kvs)), warned := false }
    ∧ from_json (.json (.obj kvs)) false = { res := .ok none, warned := true } := by
  constructor <;>
  · rw [from_json_red, if_neg (by simp [hne])]
    show ctorOut "OrderModel" (.obj kvs) _ (callCtor (buildData kvs)) = _
    rw [hmismatch]
    rfl

theorem c8_strict_lenient_witness :
    isEmptyJson (.obj [("bogus", Json.str "x")]) = false
    ∧ callCtor (buildData [("bogus", Json.str "x")]) = .error .typeError
    ∧ from_json (.json (.obj [("bogus", Json.str "x")])) true
        = { res := .error (.runtimeError "OrderModel" "dict"
            (.obj [("bogus", Json.str "x")])), warned := false }
    ∧ from_json (.json (.obj [("bogus", Json.str "x")])) false
        = { res := .ok none, warned := true } :=
  ⟨rfl, rfl, (c8_strict_lenient [("bogus", Json.str "x")] rfl rfl).1,
    (c8_strict_lenient [("bogus", Json.str "x")] rfl rfl).2⟩

def wireOrder (idv : String) : Json :=
  .obj [("id", .str idv), ("type", .null), ("from", .null), ("price", .str "1.5"),
    ("side", .str "buy")]

def modelOf (idv : String) : OrderModel :=
  { id_ := .raw (.str idv), type_ := .raw .null, from_ := .raw .null,
    price := some (Dec.mk 15 1), side := some ("BUY", "buy") }

def hbLine : RawLine := .line (.obj [("event", .str "heartbeat")])

def orderLine (idv : String) : RawLine :=
  .line (.obj [("event", .str "order"), ("order", wireOrder idv)])

/-- C4: a raw line that fails JSON parsing does not get logged-and-skipped
— it kills the reader.  `json.loads` raises `JSONDecodeError` (a
`ValueError`), the `except` clause catches only `RuntimeError`, so the
exception escapes `run()` and the background reader terminates, never
reaching the following well-formed line; the same well-formed line alone
is delivered fine, and a line whose payload merely fails to decode (a
`RuntimeError`) *is* logged and skipped with the stream continuing — which
is what the handler's own "Unable to parse message" log text was meant
for. -/
theorem c4_malformed_line_kills_stream :
    runStream (some "order") [.malformed "not json", orderLine "ord-1"]
      = ([], some .jsonDecodeError)
    ∧ runStream (some "order") [orderLine "ord-1"] = ([some (modelOf "ord-1")], none)
    ∧ runStream (some "order")
        [.line (.obj [("event", .str "order"), ("order", .obj [("bogus", .str "x")])]),
          orderLine "ord-1"]
      = ([some (modelOf "ord-1")], none) :=
  ⟨rfl, rfl, rfl⟩

theorem processLine_order_red (kvs : List (String × Json)) :
    processLine (some "order") (.line (.obj kvs))
    = (if eventMatches "order" (lookupJ "event" kvs) then
        match lookupJ "order" kvs with
        | some payload => deliverDecode payload
        | none => .error .keyError
      else .ok none) := rfl

theorem runStream_cons (f : Option String) (l : RawLine) (rest : List RawLine) :
    runStream f (l :: rest)
    = (match processLine f l with
      | .ok (some out) => ((out :: (runStream f rest).1), (runStream f rest).2)
      | .ok none => runStream f rest
      | .error e => ([], some e)) := rfl

/-- The delivery the claim describes: exactly the lines whose `event`
discriminator equals the filter, unwrapped at the filter key and decoded,
in original relative order. -/
def expectedDeliveries (f : String) (lines : List RawLine) : List (Option OrderModel) :=
  lines.filterMap (fun l => match l with
    | .line (.obj kvs) =>
      if eventMatches f (lookupJ "event" kvs) then
        match lookupJ f kvs with
        | some payload =>
          match (from_json (.json payload) true).res with
          | .ok m => some m
          | .error _ => none
        | none => none
      else none
    | _ => none)

set_option maxHeartbeats 1000000 in
/-- C3: for a stream consumer with event filter `"order"`, over any finite
list of raw lines that parse as JSON objects and whose order-payloads
decode, exactly the lines whose `event` discriminator equals `"order"`
are unwrapped at the `"order"` key, decoded and enqueued, in original
relative order, and the loop finishes without error; a line with any other
discriminator (e.g. heartbeats) is never enqueued.  On the concrete
six-line feed with two heartbeats and four orders, exactly the four
decoded orders are delivered, in order. -/
theorem c3_stream_filter (lines : List RawLine)
    (h : ∀ l ∈ lines, ∃ kvs, l = RawLine.line (.obj kvs)
      ∧ (eventMatches "order" (lookupJ "event" kvs) = true →
          ∃ payload m, lookupJ "order" kvs = some payload
            ∧ (from_json (.json payload) true).res = .ok (some m))) :
    (runStream (some "order") lines).2 = none
    ∧ (runStream (some "order") lines).1 = expectedDeliveries "order" lines := by
  induction lines with
  | nil => exact ⟨rfl, rfl⟩
  | cons l rest ih =>
    obtain ⟨kvs, rfl, hdec⟩ := h l (List.mem_cons_self _ _)
    obtain ⟨h2, h1⟩ := ih (fun x hx => h x (List.mem_cons_of_mem _ hx))
    by_cases hev : eventMatches "order" (lookupJ "event" kvs) = true
    · obtain ⟨payload, m, hpay, hm⟩ := hdec hev
      have hp : processLine (some "order") (.line (.obj kvs)) = .ok (some (some m)) := by
        rw [processLine_order_red, if_pos hev]
        simp [hpay, hm, deliverDecode]
      have hexp : expectedDeliveries "order" (RawLine.line (.obj kvs) :: rest)
          = some m :: expectedDeliveries "order" rest := by
        unfold expectedDeliveries
        rw [List.filterMap_cons]
        simp [hev, hpay, hm]
      rw [runStream_cons, hp, hexp]
      exact ⟨h2, by rw [h1]⟩
    · have hp : processLine (some "order") (.line (.obj kvs)) = .ok none := by
        rw [processLine_order_red, if_neg hev]
      have hexp : expectedDeliveries "order" (RawLine.line (.obj kvs) :: rest)
          = expectedDeliveries "order" rest := by
        unfold expectedDeliveries
        rw [List.filterMap_cons]
        simp [hev]
      rw [runStream_cons, hp, hexp]
      exact ⟨h2, h1⟩

def sixLines : List RawLine :=
  [orderLine "1", hbLine, orderLine "2", orderLine "3", hbLine, orderLine "4"]

set_option maxHeartbeats 1000000 in
theorem c3_stream_filter_witness :
    (∀ l ∈ sixLines, ∃ kvs, l = RawLine.line (.obj kvs)
      ∧ (eventMatches "order" (lookupJ "event" kvs) = true →
          ∃ payload m, lookupJ "order" kvs = some payload
            ∧ (from_json (.json payload) true).res = .ok (some m)))
    ∧ (runStream (some "order") sixLines).2 = none
    ∧ (runStream (some "order") sixLines).1 = expectedDeliveries "order" sixLines
    ∧ (runStream (some "order") sixLines).1
      = [some (modelOf "1"), some (modelOf "2"), some (modelOf "3"), some (modelOf "4")] := by
  have hH : ∀ l ∈ sixLines, ∃ kvs, l = RawLine.line (.obj kvs)
      ∧ (eventMatches "order" (lookupJ "event" kvs) = true →
          ∃ payload m, lookupJ "order" kvs = some payload
            ∧ (from_json (.json payload) true).res = .ok (some m)) := by
    intro l hl
    simp [sixLines, orderLine, hbLine] at hl
    rcases hl with rfl | rfl | rfl | rfl | rfl | rfl
    · exact ⟨_, rfl, fun _ => ⟨wireOrder "1", modelOf "1", rfl, rfl⟩⟩
    · exact ⟨_, rfl, fun hev => absurd hev (by decide)⟩
    · exact ⟨_, rfl, fun _ => ⟨wireOrder "2", modelOf "2", rfl, rfl⟩⟩
    · exact ⟨_, rfl, fun _ => ⟨wireOrder "3", modelOf "3", rfl, rfl⟩⟩
    · exact ⟨_, rfl, fun hev => absurd hev (by decide)⟩
    · exact ⟨_, rfl, fun _ => ⟨wireOrder "4", modelOf "4", rfl, rfl⟩⟩
  exact ⟨hH, (c3_stream_filter sixLines hH).1, (c3_stream_filter sixLines hH).2, rfl⟩

set_option maxHeartbeats 400000 in
/-- Canonical form of the serialized representative variant: keys sorted,
values canonicalized. -/
theorem canon_wire_obj (v1 v2 v3 v4 v5 : Json) :
    canon (.obj [("id", v1), ("type", v2), ("from", v3), ("price", v4), ("side", v5)])
    = .obj [("from", canon v3), ("id", canon v1), ("price", canon v4), ("side", canon v5),
        ("type", canon v2)] := rfl

set_option maxHeartbeats 400000 in
theorem beq_wire_obj (e1 e2 e3 e4 e5 e1' e2' e3' e4' e5' : Json) :
    beqJson
      (.obj [("from", e3), ("id", e1), ("price", e4), ("side", e5), ("type", e2)])
      (.obj [("from", e3'), ("id", e1'), ("price", e4'), ("side", e5'), ("type", e2')])
    = (beqJson e3 e3' && (beqJson e1 e1' && (beqJson e4 e4' && (beqJson e5 e5'
        && beqJson e2 e2')))) := by
  simp [beqJson, beqKVs]

theorem perm_all_eq {α : Type} (p : α → Bool) {l1 l2 : List α} (h : l1.Perm l2) :
    l1.all p = l2.all p := by
  rw [Bool.eq_iff_iff]
  simp only [List.all_eq_true]
  constructor <;> intro hx x hmem
  · exact hx x (h.mem_iff.mpr hmem)
  · exact hx x (h.mem_iff.mp hmem)

theorem lookupPV_perm {l1 l2 : List (String × PyVal)} (h : l1.Perm l2) (k : String) :
    (l1.map Prod.fst).Nodup → lookupPV k l1 = lookupPV k l2 := by
  induction h with
  | nil => intro _; rfl
  | cons x h ih =>
    intro hnodup
    simp only [List.map_cons] at hnodup
    cases hx : (x.1 == k) <;> simp only [lookupPV, hx, if_true, if_false]
    exact ih hnodup.of_cons
  | swap a b t =>
    intro hnodup
    simp only [List.map_cons, List.nodup_cons, List.mem_cons] at hnodup
    have hab : b.1 ≠ a.1 := fun he => hnodup.1 (Or.inl he)
    by_cases hb : b.1 = k <;> by_cases ha : a.1 = k
    · exact absurd (hb.trans ha.symm) hab
    · simp [lookupPV, hb, ha]
    · simp [lookupPV, hb, ha]
    · simp [lookupPV, hb, ha]
  | trans h1 h2 ih1 ih2 =>
    intro hnodup
    exact (ih1 hnodup).trans (ih2 (((h1.map Prod.fst).nodup_iff).mp hnodup))

theorem buildData_go (kvs : List (String × Json)) :
    ∀ acc, (kvs.map (fun kv => make_key kv.1)).Nodup →
      (∀ kv ∈ kvs, acc.any (fun e => e.1 == make_key kv.1) = false) →
      kvs.foldl (fun m kv => dictInsert m (make_key kv.1) (convVal kv.2)) acc
      = acc ++ kvs.map (fun kv => (make_key kv.1, convVal kv.2)) := by
  induction kvs with
  | nil => intro acc _ _; simp
  | cons kv rest ih =>
    intro acc hnodup hacc
    simp only [List.map_cons, List.nodup_cons] at hnodup
    rw [List.foldl_cons,
      dictInsert_append acc (make_key kv.1) (convVal kv.2) (hacc kv (List.mem_cons_self _ _)),
      ih (acc ++ [(make_key kv.1, convVal kv.2)]) hnodup.2 ?hacc2]
    · simp
    case hacc2 =>
      intro kv' hkv'
      rw [List.any_append]
      rw [hacc kv' (List.mem_cons_of_mem _ hkv')]
      simp only [Bool.false_or, List.any_cons, List.any_nil, Bool.or_false]
      have hne : make_key kv.1 ≠ make_key kv'.1 := by
        intro heq
        exact hnodup.1 (heq ▸ List.mem_map_of_mem _ hkv')
      simp [hne]

theorem buildData_nodup (kvs : List (String × Json))
    (hnodup : (kvs.map (fun kv => make_key kv.1)).Nodup) :
    buildData kvs = kvs.map (fun kv => (make_key kv.1, convVal kv.2)) := by
  have := buildData_go kvs [] hnodup (by simp)
  simpa [buildData] using this

theorem callCtor_perm {d1 d2 : List (String × PyVal)} (h : d1.Perm d2)
    (hnodup : (d1.map Prod.fst).Nodup) : callCtor d1 = callCtor d2 := by
  have hlk : ∀ k, lookupPV k d1 = lookupPV k d2 := fun k => lookupPV_perm h k hnodup
  unfold callCtor
  rw [perm_all_eq (fun kv => ctorParams.contains kv.1) h]
  have h2 : (ctorParams.all fun p => (lookupPV p d1).isSome)
      = (ctorParams.all fun p => (lookupPV p d2).isSome) := by
    apply congrArg
    funext p
    rw [hlk p]
  rw [h2]
  unfold getArg
  rw [hlk "id_", hlk "type_", hlk "from_", hlk "price", hlk "side"]

theorem from_json_perm_aux {kvs1 kvs2 : List (String × Json)} (hperm : kvs1.Perm kvs2)
    (hnodup : (kvs1.map (fun kv => make_key kv.1)).Nodup) (er : Bool) (m : OrderModel)
    (hres : (from_json (.json (.obj kvs1)) er).res = .ok (some m)) :
    (from_json (.json (.obj kvs2)) er).res = .ok (some m) := by
  cases kvs1 with
  | nil =>
    cases kvs2 with
    | nil => exact hres
    | cons b t2 => exact absurd hperm.length_eq (by simp)
  | cons a t1 =>
    cases kvs2 with
    | nil => exact absurd hperm.length_eq (by simp)
    | cons b t2 =>
      have hnodup2 : ((b :: t2).map (fun kv => make_key kv.1)).Nodup :=
        ((hperm.map _).nodup_iff).mp hnodup
      have hcc : callCtor (buildData (a :: t1)) = callCtor (buildData (b :: t2)) := by
        rw [buildData_nodup _ hnodup, buildData_nodup _ hnodup2]
        refine callCtor_perm (hperm.map _) ?_
        simpa [List.map_map, Function.comp] using hnodup
      rw [from_json_obj] at hres ⊢
      rw [← hcc]
      cases hr : callCtor (buildData (a :: t1)) with
      | ok m' =>
        rw [hr] at hres
        exact hres
      | error e =>
        rw [hr] at hres
        exfalso
        cases er <;> cases e <;> simp [ctorOut] at hres

def mkValid (i t f : Option String) (p : Option Dec) (sd : Option Side) : OrderModel :=
  { id_ := optPy i, type_ := optPy t, from_ := optPy f, price := p,
    side := sd.map Side.member }

def oneFieldDiffers (i1 t1 f1 : Option String) (p1 : Option Dec) (s1 : Option Side)
    (i2 t2 f2 : Option String) (p2 : Option Dec) (s2 : Option Side) : Prop :=
  (i1 ≠ i2 ∧ t1 = t2 ∧ f1 = f2 ∧ p1 = p2 ∧ s1 = s2)
  ∨ (i1 = i2 ∧ t1 ≠ t2 ∧ f1 = f2 ∧ p1 = p2 ∧ s1 = s2)
  ∨ (i1 = i2 ∧ t1 = t2 ∧ f1 ≠ f2 ∧ p1 = p2 ∧ s1 = s2)
  ∨ (i1 = i2 ∧ t1 = t2 ∧ f1 = f2 ∧ p1 ≠ p2 ∧ s1 = s2)
  ∨ (i1 = i2 ∧ t1 = t2 ∧ f1 = f2 ∧ p1 = p2 ∧ s1 ≠ s2)

theorem canon_optPy (o : Option String) :
    canon (convPy true (.raw ((o.map Json.str).getD .null))) = (o.map Json.str).getD .null := by
  cases o <;> rfl

theorem canon_optDec (p : Option Dec) :
    canon ((p.map (fun d => Json.str (renderDec d))).getD .null)
      = (p.map (fun d => Json.str (renderDec d))).getD .null := by
  cases p <;> rfl

theorem canon_optMem (s : Option (String × String)) :
    canon ((s.map (fun m => Json.str m.2)).getD .null)
      = (s.map (fun m => Json.str m.2)).getD .null := by
  cases s <;> rfl

theorem beq_optPy_ne {o1 o2 : Option String} (h : o1 ≠ o2) :
    beqJson ((o1.map Json.str).getD .null) ((o2.map Json.str).getD .null) = false := by
  cases o1 with
  | none =>
    cases o2 with
    | none => exact absurd rfl h
    | some b => rfl
  | some a =>
    cases o2 with
    | none => rfl
    | some b =>
      have hab : a ≠ b := fun he => h (he ▸ rfl)
      simp [beqJson, hab]

theorem beq_optDec_ne {p1 p2 : Option Dec} (h : p1 ≠ p2) :
    beqJson ((p1.map (fun d => Json.str (renderDec d))).getD .null)
      ((p2.map (fun d => Json.str (renderDec d))).getD .null) = false := by
  cases p1 with
  | none =>
    cases p2 with
    | none => exact absurd rfl h
    | some b => rfl
  | some a =>
    cases p2 with
    | none => rfl
    | some b =>
      have hab : renderDec a ≠ renderDec b :=
        fun he => h (congrArg some (renderDec_injective he))
      simp [beqJson, hab]

theorem beq_optSide_ne {s1 s2 : Option Side} (h : s1 ≠ s2) :
    beqJson (((s1.map Side.member).map (fun m => Json.str m.2)).getD .null)
      (((s2.map Side.member).map (fun m => Json.str m.2)).getD .null) = false := by
  cases s1 with
  | none =>
    cases s2 with
    | none => exact absurd rfl h
    | some b => cases b <;> rfl
  | some a =>
    cases s2 with
    | none => cases a <;> rfl
    | some b =>
      cases a <;> cases b
      · exact absurd rfl h
      · rfl
      · rfl
      · exact absurd rfl h

theorem one_field_diff_ne (i1 t1 f1 : Option String) (p1 : Option Dec) (s1 : Option Side)
    (i2 t2 f2 : Option String) (p2 : Option Dec) (s2 : Option Side)
    (h : oneFieldDiffers i1 t1 f1 p1 s1 i2 t2 f2 p2 s2) :
    modelEq (mkValid i1 t1 f1 p1 s1) (.model (mkValid i2 t2 f2 p2 s2)) = .ok false := by
  have hme : ∀ a b : OrderModel, modelEq a (.model b)
      = .ok (beqJson (canon (a.to_json true)) (canon (b.to_json true))) := fun _ _ => rfl
  have hmv : ∀ (i t f : Option String) (p : Option Dec) (sd : Option Side),
      mkValid i t f p sd = OrderModel.mk (.raw ((i.map Json.str).getD .null))
        (.raw ((t.map Json.str).getD .null)) (.raw ((f.map Json.str).getD .null)) p
        (sd.map Side.member) := fun _ _ _ _ _ => rfl
  rw [hme, hmv, hmv, to_json_mk, to_json_mk, canon_wire_obj, canon_wire_obj, beq_wire_obj]
  simp only [canon_optPy, canon_optDec, canon_optMem]
  rcases h with ⟨hne, rfl, rfl, rfl, rfl⟩ | ⟨rfl, hne, rfl, rfl, rfl⟩
    | ⟨rfl, rfl, hne, rfl, rfl⟩ | ⟨rfl, rfl, rfl, hne, rfl⟩ | ⟨rfl, rfl, rfl, rfl, hne⟩
  · rw [beq_optPy_ne hne]
    simp [beqJson_refl]
  · rw [beq_optPy_ne hne]
    simp [beqJson_refl]
  · rw [beq_optPy_ne hne]
    simp [beqJson_refl]
  · rw [beq_optDec_ne hne]
    simp [beqJson_refl]
  · rw [beq_optSide_ne hne]
    simp [beqJson_refl]

set_option maxHeartbeats 400000 in
/-- C6: (i) decoding two JSON objects that differ only in key insertion
order (with distinct logical keys, as wire payloads have) yields equal
instances — the second decode returns the very same instance and the
`__eq__` comparison holds; (ii) two valid instances that differ in exactly
one field value are not equal; (iii) comparing a model to a non-model
value raises `ValueError` instead of returning `False`. -/
theorem c6_equality_semantics :
    (∀ (kvs1 kvs2 : List (String × Json)) (er : Bool) (m : OrderModel),
      kvs1.Perm kvs2 → (kvs1.map (fun kv => make_key kv.1)).Nodup →
      (from_json (.json (.obj kvs1)) er).res = .ok (some m) →
      (from_json (.json (.obj kvs2)) er).res = .ok (some m)
        ∧ modelEq m (.model m) = .ok true)
    ∧ (∀ (i1 t1 f1 : Option String) (p1 : Option Dec) (s1 : Option Side)
        (i2 t2 f2 : Option String) (p2 : Option Dec) (s2 : Option Side),
        oneFieldDiffers i1 t1 f1 p1 s1 i2 t2 f2 p2 s2 →
        modelEq (mkValid i1 t1 f1 p1 s1) (.model (mkValid i2 t2 f2 p2 s2)) = .ok false)
    ∧ (∀ (m : OrderModel) (j : Json),
        modelEq m (.nonModel j)
          = .error (.valueError "Impossible to directly compare non-models objects")) :=
  ⟨fun _ _ er m hperm hnodup hres =>
    ⟨from_json_perm_aux hperm hnodup er m hres, congrArg Except.ok (beqJson_refl _)⟩,
   one_field_diff_ne, fun _ _ => rfl⟩

def kvsTypeFirst : List (String × Json) :=
  [("type", Json.null), ("id", Json.str "A"), ("from", Json.null), ("price", Json.str "1.5"),
    ("side", Json.null)]

def kvsIdFirst : List (String × Json) :=
  [("id", Json.str "A"), ("type", Json.null), ("from", Json.null), ("price", Json.str "1.5"),
    ("side", Json.null)]

set_option maxHeartbeats 1000000 in
theorem c6_equality_witness :
    kvsTypeFirst.Perm kvsIdFirst
    ∧ (kvsTypeFirst.map (fun kv => make_key kv.1)).Nodup
    ∧ (from_json (.json (.obj kvsTypeFirst)) true).res
        = .ok (some (OrderModel.mk (.raw (.str "A")) (.raw .null) (.raw .null)
            (some (Dec.mk 15 1)) none))
    ∧ ((from_json (.json (.obj kvsIdFirst)) true).res
        = .ok (some (OrderModel.mk (.raw (.str "A")) (.raw .null) (.raw .null)
            (some (Dec.mk 15 1)) none))
      ∧ modelEq (OrderModel.mk (.raw (.str "A")) (.raw .null) (.raw .null)
            (some (Dec.mk 15 1)) none)
          (.model (OrderModel.mk (.raw (.str "A")) (.raw .null) (.raw .null)
            (some (Dec.mk 15 1)) none)) = .ok true)
    ∧ oneFieldDiffers (some "A") none none none none (some "B") none none none none
    ∧ modelEq (mkValid (some "A") none none none none)
        (.model (mkValid (some "B") none none none none)) = .ok false :=
  ⟨List.Perm.swap ("id", Json.str "A") ("type", Json.null)
      [("from", Json.null), ("price", Json.str "1.5"), ("side", Json.null)],
   by decide, rfl,
   c6_equality_semantics.1 kvsTypeFirst kvsIdFirst true
     (OrderModel.mk (.raw (.str "A")) (.raw .null) (.raw .null) (some (Dec.mk 15 1)) none)
     (List.Perm.swap ("id", Json.str "A") ("type", Json.null)
       [("from", Json.null), ("price", Json.str "1.5"), ("side", Json.null)])
     (by decide) rfl,
   Or.inl ⟨by decide, rfl, rfl, rfl, rfl⟩,
   c6_equality_semantics.2.1 (some "A") none none none none (some "B") none none none none
     (Or.inl ⟨by decide, rfl, rfl, rfl, rfl⟩)⟩
